import Mathlib

/-!
# Verification of `linkedin_industry_code.py`

A shallow embedding of the table-extraction pipeline:

* an HTML document tree (`Node`), with BeautifulSoup's preorder traversal
  semantics for `find_all` / `find` / `find_previous` and `get_text(strip=True)`;
* `extract_and_join_tables` (lines 5-69 of the source), embedded over a
  fetch outcome so the error path is visible;
* `write_to_csv` (lines 71-86) with the exact quoting convention of Python's
  `csv.writer` (excel dialect, `QUOTE_MINIMAL`, CRLF line terminator,
  doubled quotes, and the single-empty-field quoting rule);
* the `__main__` driver (lines 88-109) as a file-state transformer.
-/

namespace LinkedinTables

/-- A node of the parsed document tree: a text fragment or an element with a
tag and children. The whole document is a forest `List Node` (the soup's
top-level nodes). -/
inductive Node where
  | text : String → Node
  | elem : String → List Node → Node

/-- Python's `str.strip` over the character content: drop whitespace from
both ends (the model of the `strip=True` normalization). -/
def stripChars (l : List Char) : List Char :=
  ((l.dropWhile Char.isWhitespace).reverse.dropWhile Char.isWhitespace).reverse

/-- `str.strip` on a string. -/
def stripText (s : String) : String := String.mk (stripChars s.data)

/-- Children of a node (a text fragment has none). -/
def childrenOf : Node → List Node
  | .text _ => []
  | .elem _ cs => cs

/-- Tag of an element node. -/
def tagOf : Node → Option String
  | .text _ => none
  | .elem t _ => some t

mutual
/-- `get_text(strip=True)` over a forest: each text fragment stripped, all
fragments concatenated in document order. -/
def getTextF : List Node → String
  | [] => ""
  | n :: ns => getTextN n ++ getTextF ns

/-- `get_text(strip=True)` of one node. -/
def getTextN : Node → String
  | .text s => stripText s
  | .elem _ cs => getTextF cs
end

mutual
/-- BeautifulSoup `find_all` over a forest: all element nodes whose tag
satisfies `p`, in document (preorder) order, nested matches included. -/
def findAllF (p : String → Bool) : List Node → List Node
  | [] => []
  | n :: ns => findAllN p n ++ findAllF p ns

/-- `find_all` within one node: the node itself if it matches, then its
descendants. -/
def findAllN (p : String → Bool) : Node → List Node
  | .text _ => []
  | .elem t cs => (if p t then [Node.elem t cs] else []) ++ findAllF p cs
end

/-- Is a heading tag `h1`..`h6` (line 44 of the source). -/
def isHeading (t : String) : Bool :=
  t == "h1" || t == "h2" || t == "h3" || t == "h4" || t == "h5" || t == "h6"

def isTable (t : String) : Bool := t == "table"

def isCaption (t : String) : Bool := t == "caption"

def isTr (t : String) : Bool := t == "tr"

/-- `['th', 'td']` filter of line 61. -/
def isCell (t : String) : Bool := t == "th" || t == "td"

def isHeadingNode (n : Node) : Bool :=
  match tagOf n with
  | some t => isHeading t
  | none => false

/-- `soup.find_all('table')` (line 29): every table element in document
order, nested tables included. -/
def tables (doc : List Node) : List Node := findAllF isTable doc

/-- All element nodes of the document in document (preorder) order: the
parse order that `find_previous` walks backwards. -/
def elemsF (doc : List Node) : List Node := findAllF (fun _ => true) doc

/-- The tables with their positions in the document-order element sequence,
so that `find_previous` can be expressed as a backward search. -/
def idxTables (doc : List Node) : List (Nat × Node) :=
  ((elemsF doc).enum).filter (fun p => isTable ((tagOf p.2).getD ""))

/-- `table.find_previous(['h1',...,'h6'])` for the table at element
position `j`: the last heading element strictly before it in document
order (ancestors included, as in BeautifulSoup's `previous_elements`). -/
def previousHeading (doc : List Node) (j : Nat) : Option Node :=
  (((elemsF doc).take j).filter isHeadingNode).getLast?

/-- `table.find('caption')` (line 49): first caption descendant. -/
def captionOf (tbl : Node) : Option Node :=
  (findAllF isCaption (childrenOf tbl)).head?

/-- Lines 48-51: caption text if a caption is found with non-empty stripped
text, else the positional default `"Table " + (i+1)` of line 40. -/
def captionOrDefault (i : Nat) (tbl : Node) : String :=
  match captionOf tbl with
  | some c => if getTextN c ≠ "" then getTextN c else "Table " ++ toString (i + 1)
  | none => "Table " ++ toString (i + 1)

/-- Lines 40-51: resolved display name of the table at table-index `i`
(0-based) and document element position `j`. -/
def tableNameOf (doc : List Node) (i j : Nat) (tbl : Node) : String :=
  match previousHeading doc j with
  | some h => if getTextN h ≠ "" then getTextN h else captionOrDefault i tbl
  | none => captionOrDefault i tbl

/-- `table.find_all('tr')` (line 53): all row elements among the table's
descendants, nested tables' rows included. -/
def tableRows (tbl : Node) : List Node := findAllF isTr (childrenOf tbl)

/-- Lines 60-63: the stripped text of each `th`/`td` cell of a row. -/
def rowCells (row : Node) : List String :=
  (findAllF isCell (childrenOf row)).map getTextN

/-- Lines 59-67: one iteration of the row loop — append the labeled row to
the accumulator unless the extracted cell list is empty. -/
def rowStep (tableName : String) (acc2 : List (List String)) (row : Node) :
    List (List String) :=
  let row_cells := rowCells row
  if row_cells.isEmpty then acc2 else acc2 ++ [tableName :: row_cells]

/-- Lines 37-67: one iteration of the table loop — resolve the name, skip a
table with no rows (lines 54-56), otherwise fold the row loop. The entry
`x` is `(i, (j, tbl))`: table index, document element position, table. -/
def tableStep (doc : List Node) (acc : List (List String)) (x : Nat × Nat × Node) :
    List (List String) :=
  let tableName := tableNameOf doc x.1 x.2.1 x.2.2
  let rows := tableRows x.2.2
  if rows.isEmpty then acc else rows.foldl (rowStep tableName) acc

/-- Lines 34-69: the accumulation loop, embedded faithfully as left folds
over the tables and rows with an appended accumulator. -/
def extractBody (doc : List Node) : List (List String) :=
  ((idxTables doc).enum).foldl (tableStep doc) []

/-- Outcome of `requests.get` + `raise_for_status` (lines 21-22): either the
parsed document, or a `RequestException` (transport failure or 4xx/5xx
status) with its message. -/
inductive FetchOutcome where
  | failure : String → FetchOutcome
  | success : List Node → FetchOutcome

/-- `extract_and_join_tables` (lines 5-69): returns the printed messages and
the combined row list. A caught fetch error or an absence of tables yields
an empty list, never an exception. -/
def extract_and_join_tables (url : String) (f : FetchOutcome) :
    List String × List (List String) :=
  match f with
  | .failure e => (["Error fetching URL " ++ url ++ ": " ++ e], [])
  | .success doc =>
      if (tables doc).isEmpty then (["No tables found on the page."], [])
      else ([], extractBody doc)

/-! ## Specification-side views of the extraction -/

/-- The labeled rows contributed by the table entry `x = (i, (j, tbl))`:
its rows in document order, empty rows dropped, each remaining row
prefixed with the resolved name as one field. -/
def labeledRowsOfTable (doc : List Node) (x : Nat × Nat × Node) :
    List (List String) :=
  (tableRows x.2.2).filterMap fun row =>
    if (rowCells row).isEmpty then none
    else some (tableNameOf doc x.1 x.2.1 x.2.2 :: rowCells row)

/-- The output in the order the spec prescribes: tables in document order,
then rows in within-table order, concatenated without reordering or
deduplication. -/
def orderedOutput (doc : List Node) : List (List String) :=
  (((idxTables doc).enum).map (labeledRowsOfTable doc)).flatten

/-- Every `(resolved name, extracted cells)` pair of every row element of
every table, with no row dropped: the raw material the extractor filters. -/
def allRowPairs (doc : List Node) : List (String × List String) :=
  (((idxTables doc).enum).map (fun x =>
    (tableRows x.2.2).map fun row =>
      (tableNameOf doc x.1 x.2.1 x.2.2, rowCells row))).flatten

/-- Trimmed text of the nearest preceding heading of the table at element
position `j`, or `""` when no heading precedes it. -/
def nearestHeadingText (doc : List Node) (j : Nat) : String :=
  ((previousHeading doc j).map getTextN).getD ""

/-- Trimmed text of the table's first caption descendant, or `""` when the
table contains no caption. -/
def captionText (tbl : Node) : String :=
  ((captionOf tbl).map getTextN).getD ""

/-! ## The CSV layer

Python's `csv.writer` with the default `excel` dialect and
`QUOTE_MINIMAL`: fields are separated by `,` and records terminated by
`"\r\n"`; a field containing the delimiter, the quote character, or a
line-terminator character is wrapped in quotes with inner quotes doubled;
additionally, a field that is the only field of its record and is empty is
quoted (CPython `_csv.c`, so that the record is not mistaken for a blank
line). Everything is over `List Char`, the character content of the file.
-/

def CRLF : List Char := ['\r', '\n']

/-- Double every quote character of a field. -/
def escapeQuotes : List Char → List Char
  | [] => []
  | c :: cs => if c = '"' then '"' :: '"' :: escapeQuotes cs else c :: escapeQuotes cs

/-- `QUOTE_MINIMAL`: quote exactly the fields holding a delimiter, a quote,
or a line-terminator character. -/
def needsQuoting (f : List Char) : Bool :=
  f.any fun c => c == ',' || c == '"' || c == '\r' || c == '\n'

/-- One encoded field; `quoteEmpty` is set when the field is the only field
of its record. -/
def encodeField (quoteEmpty : Bool) (f : List Char) : List Char :=
  if needsQuoting f || (quoteEmpty && f.isEmpty) then '"' :: (escapeQuotes f ++ ['"'])
  else f

/-- The fields of a multi-field record, comma-separated. -/
def encodeFields : List (List Char) → List Char
  | [] => []
  | [f] => encodeField false f
  | f :: g :: gs => encodeField false f ++ ',' :: encodeFields (g :: gs)

/-- One encoded record, terminated by CRLF. -/
def encodeRecord : List (List Char) → List Char
  | [] => CRLF
  | [f] => encodeField true f ++ CRLF
  | f :: g :: gs => encodeField false f ++ ',' :: (encodeFields (g :: gs) ++ CRLF)

/-- The character content `csv.writer` produces for a row list. -/
def csvChars (rows : List (List (List Char))) : List Char :=
  (rows.map encodeRecord).flatten

/-- The file content `write_to_csv` produces for its `data` argument. -/
def csvContent (data : List (List String)) : String :=
  String.mk (csvChars (data.map fun r => r.map String.data))

/-- Inside a quoted field (opening quote already consumed): a doubled quote
is a literal quote, a lone quote closes the field. -/
def parseQuoted : List Char → Option (List Char × List Char)
  | [] => none
  | c :: rest =>
    if c = '"' then
      match rest with
      | c2 :: rest2 =>
          if c2 = '"' then (parseQuoted rest2).map fun p => ('"' :: p.1, p.2)
          else some ([], rest)
      | [] => some ([], [])
    else (parseQuoted rest).map fun p => (c :: p.1, p.2)

/-- An unquoted field: everything up to the next delimiter or record end. -/
def parseUnquoted : List Char → List Char × List Char
  | [] => ([], [])
  | c :: rest =>
    if c = ',' || c = '\r' then ([], c :: rest)
    else
      let p := parseUnquoted rest
      (c :: p.1, p.2)

/-- One field: quoted if it starts with a quote, unquoted otherwise. -/
def parseField (s : List Char) : Option (List Char × List Char) :=
  match s with
  | [] => some ([], [])
  | c :: rest => if c = '"' then parseQuoted rest else some (parseUnquoted s)

/-- The comma-separated fields of one record up to and including its CRLF
terminator (`fuel` bounds the number of fields). -/
def parseFields : Nat → List Char → Option (List (List Char) × List Char)
  | 0, _ => none
  | fuel + 1, s =>
    match parseField s with
    | none => none
    | some (f, rest) =>
      match rest with
      | [] => none
      | c1 :: r1 =>
        if c1 = ',' then
          match parseFields fuel r1 with
          | none => none
          | some (fs, r3) => some (f :: fs, r3)
        else if c1 = '\r' then
          match r1 with
          | [] => none
          | c2 :: r2 => if c2 = '\n' then some ([f], r2) else none
        else none

/-- One record: a blank line is the empty record (as Python's `csv.reader`
returns `[]` for it), anything else is a comma-separated field list. -/
def parseRecord (s : List Char) : Option (List (List Char) × List Char) :=
  if s.take 2 = CRLF then some ([], s.drop 2)
  else if s.isEmpty then none
  else parseFields (s.length + 1) s

/-- All records of the file (`fuel` bounds the number of records). -/
def parseRows : Nat → List Char → Option (List (List (List Char)))
  | 0, s => if s.isEmpty then some [] else none
  | fuel + 1, s =>
    if s.isEmpty then some []
    else
      match parseRecord s with
      | none => none
      | some (r, rest) => (parseRows fuel rest).map (r :: ·)

/-- Parse a whole character sequence under the quoting convention. -/
def parseCsvChars (s : List Char) : Option (List (List (List Char))) :=
  parseRows (s.length + 1) s

/-- Parse a written file back into rows of string fields. -/
def parseCsv (s : String) : Option (List (List String)) :=
  (parseCsvChars s.data).map fun rows => rows.map fun r => r.map String.mk

/-! ## The Writer and the driver -/

/-- Mode of the `open` call; line 80 of the source uses `'w'`
(truncate-and-rewrite), never `'a'` (append). -/
inductive OpenMode where
  | write
  | append
deriving DecidableEq

def sourceOpenMode : OpenMode := OpenMode.write

/-- How the underlying I/O behaves during one `write_to_csv` call:
everything succeeds, `open` raises `IOError`, or the stream raises
`IOError` after `k` records were written. -/
inductive WriteAttempt where
  | success
  | failAtOpen : String → WriteAttempt
  | failAfter : Nat → String → WriteAttempt
deriving DecidableEq

/-- The underlying `open` + `writerow` stream (lines 80-83): the file state
for the destination path is `none` when the file is absent, `some s` when
it holds content `s`. A failure carries the `IOError` message and the file
state the stream left behind: untouched prior content when `open` itself
failed, a written prefix otherwise. -/
def rawWrite (mode : OpenMode) (w : WriteAttempt) (data : List (List String))
    (prior : Option String) : Except (String × Option String) (Option String) :=
  let base := match mode with
    | .write => ""
    | .append => prior.getD ""
  match w with
  | .success => .ok (some (base ++ csvContent data))
  | .failAtOpen e => .error (e, prior)
  | .failAfter k e => .error (e, some (base ++ csvContent (data.take k)))

/-- `write_to_csv` (lines 71-86): runs the raw write and catches `IOError`
locally (lines 79, 85-86). It is a total function — no exception reaches
the caller — returning the final file state and the printed messages. -/
def write_to_csv (w : WriteAttempt) (data : List (List String))
    (filename : String) (prior : Option String) : Option String × List String :=
  match rawWrite sourceOpenMode w data prior with
  | .ok st => (st, ["Data successfully written to " ++ filename])
  | .error (e, st) => (st, ["Error writing to CSV file " ++ filename ++ ": " ++ e])

/-- Line 89. -/
def targetUrl : String :=
  "https://learn.microsoft.com/en-us/linkedin/shared/references/reference-tables/industry-codes-v2"

/-- The `__main__` driver (lines 88-109): extract, and only when the row
list is non-empty invoke the Writer on `linkedin_industry_codes.csv`.
Returns the file state of the destination after the run. -/
def mainRun (f : FetchOutcome) (w : WriteAttempt) (prior : Option String) :
    Option String :=
  let joined_tables := (extract_and_join_tables targetUrl f).2
  if joined_tables.isEmpty then prior
  else (write_to_csv w joined_tables "linkedin_industry_codes.csv" prior).1

/-! ## Concrete documents used to instantiate the theorems -/

/-- A heading `" Industry Codes "` followed by a two-row table (the spec's
concrete example). -/
def exampleDoc : List Node :=
  [Node.elem "h2" [Node.text " Industry Codes "],
   Node.elem "table"
     [Node.elem "tr" [Node.elem "th" [Node.text "Code"],
                      Node.elem "th" [Node.text "Name"]],
      Node.elem "tr" [Node.elem "td" [Node.text "51"],
                      Node.elem "td" [Node.text "Finance"]]]]

/-- One heading followed by two tables with no heading between them; the
second table carries a caption. -/
def sharedHeadingDoc : List Node :=
  [Node.elem "h2" [Node.text "Shared"],
   Node.elem "table" [Node.elem "tr" [Node.elem "td" [Node.text "a"]]],
   Node.elem "table" [Node.elem "caption" [Node.text "Cap"],
     Node.elem "tr" [Node.elem "td" [Node.text "b"]]]]

/-- A captioned table nested inside the cell of a captioned outer table. -/
def innerTable : Node :=
  Node.elem "table" [Node.elem "caption" [Node.text "Inner"],
    Node.elem "tr" [Node.elem "td" [Node.text "x"]]]

def innerRow : Node := Node.elem "tr" [Node.elem "td" [Node.text "x"]]

def outerTable : Node :=
  Node.elem "table" [Node.elem "caption" [Node.text "Outer"],
    Node.elem "tr" [Node.elem "td" [innerTable]]]

def nestedDoc : List Node := [outerTable]

/-! ## Structure of the extraction loop -/

theorem rowStep_foldl (tableName : String) (rows : List Node)
    (acc : List (List String)) :
    rows.foldl (rowStep tableName) acc =
      acc ++ rows.filterMap (fun row =>
        if (rowCells row).isEmpty then none
        else some (tableName :: rowCells row)) := by
  induction rows generalizing acc with
  | nil => simp
  | cons r rs ih =>
      simp only [List.foldl_cons, List.filterMap_cons, rowStep]
      by_cases h : (rowCells r).isEmpty
      · simp [h, ih]
      · simp [h, ih]

theorem tableStep_eq (doc : List Node) (acc : List (List String))
    (x : Nat × Nat × Node) :
    tableStep doc acc x = acc ++ labeledRowsOfTable doc x := by
  unfold tableStep labeledRowsOfTable
  by_cases h : (tableRows x.2.2).isEmpty
  · rw [List.isEmpty_iff] at h
    simp [h]
  · simp [h, rowStep_foldl]

theorem tableStep_foldl (doc : List Node) (l : List (Nat × Nat × Node))
    (acc : List (List String)) :
    l.foldl (tableStep doc) acc =
      acc ++ (l.map (labeledRowsOfTable doc)).flatten := by
  induction l generalizing acc with
  | nil => simp
  | cons x xs ih =>
      simp only [List.foldl_cons, List.map_cons, List.flatten_cons, tableStep_eq]
      rw [ih, List.append_assoc]

theorem extractBody_eq_orderedOutput (doc : List Node) :
    extractBody doc = orderedOutput doc := by
  unfold extractBody orderedOutput
  simpa using tableStep_foldl doc ((idxTables doc).enum) []

/-! ## `find_all` as a filter of the document-order element sequence -/

mutual
theorem filter_elemsF (p : String → Bool) :
    ∀ l : List Node,
      (findAllF (fun _ => true) l).filter (fun n => p ((tagOf n).getD "")) =
        findAllF p l
  | [] => by simp [findAllF]
  | n :: ns => by
      rw [findAllF, findAllF, List.filter_append, filter_elemsF p ns,
        filter_elemsN p n]
theorem filter_elemsN (p : String → Bool) :
    ∀ n : Node,
      (findAllN (fun _ => true) n).filter (fun n => p ((tagOf n).getD "")) =
        findAllN p n
  | .text s => by simp [findAllN]
  | .elem t cs => by
      rw [findAllN, findAllN, List.filter_append, filter_elemsF p cs]
      congr 1
      cases hp : p t <;> simp [List.filter_cons, tagOf, hp]
end

theorem map_snd_filter_enumFrom {α : Type} (q : α → Bool) :
    ∀ (l : List α) (k : Nat),
      ((l.enumFrom k).filter (fun x => q x.2)).map Prod.snd = l.filter q := by
  intro l
  induction l with
  | nil => intro k; simp
  | cons a as ih =>
      intro k
      by_cases h : q a
      · simp [List.enumFrom_cons, List.filter_cons, h, ih]
      · simp [List.enumFrom_cons, List.filter_cons, h, ih]

theorem tables_eq_map_idxTables (doc : List Node) :
    tables doc = (idxTables doc).map Prod.snd := by
  unfold tables idxTables elemsF
  rw [List.enum,
    map_snd_filter_enumFrom (fun n => isTable ((tagOf n).getD ""))
      (findAllF (fun _ => true) doc) 0,
    filter_elemsF]

theorem tables_isEmpty_iff (doc : List Node) :
    (tables doc).isEmpty = (idxTables doc).isEmpty := by
  rw [tables_eq_map_idxTables]
  cases idxTables doc <;> simp

/-- On a successful fetch the returned row list is the per-table,
per-row concatenation, whether or not the document has tables. -/
theorem extract_success_snd (url : String) (doc : List Node) :
    (extract_and_join_tables url (FetchOutcome.success doc)).2 =
      orderedOutput doc := by
  unfold extract_and_join_tables
  cases h : (tables doc).isEmpty
  · simp only [h, Bool.false_eq_true, if_false]
    exact extractBody_eq_orderedOutput doc
  · have h2 : idxTables doc = [] := by
      rw [← List.isEmpty_iff, ← tables_isEmpty_iff, h]
    simp [h, orderedOutput, h2]

/-! ## Name-resolution helper lemmas -/

theorem tableNameOf_heading (doc : List Node) (i j : Nat) (tbl : Node)
    (h : nearestHeadingText doc j ≠ "") :
    tableNameOf doc i j tbl = nearestHeadingText doc j := by
  unfold nearestHeadingText at h ⊢
  unfold tableNameOf
  cases hh : previousHeading doc j with
  | none => rw [hh] at h; simp at h
  | some hd =>
      rw [hh] at h
      simp only [Option.map_some', Option.getD_some] at h
      simp [h]

theorem tableNameOf_caption (doc : List Node) (i j : Nat) (tbl : Node)
    (h1 : nearestHeadingText doc j = "") (h2 : captionText tbl ≠ "") :
    tableNameOf doc i j tbl = captionText tbl := by
  unfold nearestHeadingText at h1
  unfold captionText at h2 ⊢
  unfold tableNameOf captionOrDefault
  cases hc : captionOf tbl with
  | none => rw [hc] at h2; simp at h2
  | some c =>
      rw [hc] at h2
      simp only [Option.map_some', Option.getD_some] at h2
      cases hh : previousHeading doc j with
      | none => simp [h2]
      | some hd =>
          have h1' : getTextN hd = "" := by rw [hh] at h1; simpa using h1
          simp [h1', h2]

theorem tableNameOf_fallback (doc : List Node) (i j : Nat) (tbl : Node)
    (h1 : nearestHeadingText doc j = "") (h2 : captionText tbl = "") :
    tableNameOf doc i j tbl = "Table " ++ toString (i + 1) := by
  unfold nearestHeadingText at h1
  unfold captionText at h2
  unfold tableNameOf captionOrDefault
  cases hc : captionOf tbl with
  | none =>
      cases hh : previousHeading doc j with
      | none => rfl
      | some hd =>
          have h1' : getTextN hd = "" := by rw [hh] at h1; simpa using h1
          simp [h1']
  | some c =>
      rw [hc] at h2
      simp only [Option.map_some', Option.getD_some] at h2
      cases hh : previousHeading doc j with
      | none => simp [h2]
      | some hd =>
          have h1' : getTextN hd = "" := by rw [hh] at h1; simpa using h1
          simp [h1', h2]

/-! ## Claim theorems -/

/-- C1: for every table selected for extraction exactly one display name
is resolved, with the precedence: non-empty trimmed text of the nearest
preceding heading first (regardless of any caption), else non-empty
trimmed caption text, else the positional fallback
`"Table " ++ (1-based index among all tables in document order)`. -/
theorem naming_precedence (doc : List Node) (i j : Nat) (tbl : Node) :
    (nearestHeadingText doc j ≠ "" →
      tableNameOf doc i j tbl = nearestHeadingText doc j) ∧
    (nearestHeadingText doc j = "" → captionText tbl ≠ "" →
      tableNameOf doc i j tbl = captionText tbl) ∧
    (nearestHeadingText doc j = "" → captionText tbl = "" →
      tableNameOf doc i j tbl = "Table " ++ toString (i + 1)) :=
  ⟨fun h => tableNameOf_heading doc i j tbl h,
   fun h1 h2 => tableNameOf_caption doc i j tbl h1 h2,
   fun h1 h2 => tableNameOf_fallback doc i j tbl h1 h2⟩

/-- Witness for C1 at the concrete example document: the heading case
applies and resolves the heading's trimmed text. -/
theorem naming_precedence_witness :
    nearestHeadingText exampleDoc 1 ≠ "" ∧
      tableNameOf exampleDoc 0 1 (Node.elem "table" []) =
        nearestHeadingText exampleDoc 1 :=
  ⟨by decide, (naming_precedence exampleDoc 0 1 (Node.elem "table" [])).1 (by decide)⟩

/-- C2: the sequence returned by the extractor is ordered exactly as
(table order in the document) then (row order within each table): it is
the concatenation, over the tables in document order, of each table's
rows in document order — no reordering, no deduplication. -/
theorem output_order_preserved (url : String) (doc : List Node) :
    (extract_and_join_tables url (FetchOutcome.success doc)).2 =
      orderedOutput doc :=
  extract_success_snd url doc

/-- The ordered output is the filter of the unfiltered row material. -/
theorem orderedOutput_eq_filterMap (doc : List Node) :
    orderedOutput doc =
      (allRowPairs doc).filterMap
        (fun p => if p.2.isEmpty then none else some (p.1 :: p.2)) := by
  unfold orderedOutput allRowPairs
  rw [List.filterMap_flatten, List.map_map]
  refine congrArg List.flatten (List.map_congr_left ?_)
  intro x _
  simp only [Function.comp_apply, List.filterMap_map]
  rfl

/-- C3: a row element whose extracted cell sequence is empty contributes
nothing to the returned sequence — the output is exactly the empty-cell
filter of all `(name, cells)` row pairs, so such rows are dropped
silently and never appear. -/
theorem empty_rows_never_output (url : String) (doc : List Node) :
    (extract_and_join_tables url (FetchOutcome.success doc)).2 =
      (allRowPairs doc).filterMap
        (fun p => if p.2.isEmpty then none else some (p.1 :: p.2)) := by
  rw [extract_success_snd, orderedOutput_eq_filterMap]

/-- C8: two tables whose backward heading search lands on the same
preceding heading with non-empty trimmed text are both named by that
heading's text, whatever either table contains (any caption is ignored). -/
theorem shared_heading_same_name (doc : List Node) (i1 j1 i2 j2 : Nat)
    (t1 t2 : Node)
    (hsame : previousHeading doc j1 = previousHeading doc j2)
    (hne : nearestHeadingText doc j1 ≠ "") :
    tableNameOf doc i1 j1 t1 = nearestHeadingText doc j1 ∧
    tableNameOf doc i2 j2 t2 = nearestHeadingText doc j1 := by
  have hsame' : nearestHeadingText doc j2 = nearestHeadingText doc j1 := by
    unfold nearestHeadingText
    rw [hsame]
  refine ⟨tableNameOf_heading doc i1 j1 t1 hne, ?_⟩
  rw [← hsame']
  exact tableNameOf_heading doc i2 j2 t2 (by rw [hsame']; exact hne)

/-- Witness for C8 at the two-tables-one-heading document: both tables,
the second despite its caption, are named `"Shared"`. -/
theorem shared_heading_same_name_witness :
    (previousHeading sharedHeadingDoc 2 = previousHeading sharedHeadingDoc 5 ∧
      nearestHeadingText sharedHeadingDoc 2 ≠ "") ∧
    (tableNameOf sharedHeadingDoc 0 2
        (Node.elem "table" [Node.elem "tr" [Node.elem "td" [Node.text "a"]]]) =
      nearestHeadingText sharedHeadingDoc 2 ∧
     tableNameOf sharedHeadingDoc 1 5
        (Node.elem "table" [Node.elem "caption" [Node.text "Cap"],
          Node.elem "tr" [Node.elem "td" [Node.text "b"]]]) =
      nearestHeadingText sharedHeadingDoc 2) :=
  ⟨⟨rfl, by decide⟩,
   shared_heading_same_name sharedHeadingDoc 0 2 1 5 _ _ rfl (by decide)⟩

/-- A member of the ordered output is a resolved table name followed by a
non-empty cell list. -/
theorem mem_orderedOutput {doc : List Node} {r : List String}
    (h : r ∈ orderedOutput doc) :
    ∃ x ∈ (idxTables doc).enum, ∃ cells, cells ≠ [] ∧
      r = tableNameOf doc x.1 x.2.1 x.2.2 :: cells := by
  unfold orderedOutput at h
  rw [List.mem_flatten] at h
  obtain ⟨l, hl, hr⟩ := h
  rw [List.mem_map] at hl
  obtain ⟨x, hx, rfl⟩ := hl
  unfold labeledRowsOfTable at hr
  rw [List.mem_filterMap] at hr
  obtain ⟨row, _, heq⟩ := hr
  by_cases hc : (rowCells row).isEmpty
  · simp [hc] at heq
  · simp only [hc, Bool.false_eq_true, if_false] at heq
    exact ⟨x, hx, rowCells row, fun hnil => hc (by rw [hnil]; rfl),
      (Option.some.inj heq).symm⟩

/-- C10: every Labeled Row returned by the extractor has at least two
fields — its table's resolved name as exactly one field, then at least
one cell value; no one-field row is produced. -/
theorem labeled_row_shape (url : String) (doc : List Node) (r : List String)
    (h : r ∈ (extract_and_join_tables url (FetchOutcome.success doc)).2) :
    2 ≤ r.length ∧ ∃ x ∈ (idxTables doc).enum, ∃ cells, cells ≠ [] ∧
      r = tableNameOf doc x.1 x.2.1 x.2.2 :: cells := by
  rw [extract_success_snd] at h
  obtain ⟨x, hx, cells, hc, rfl⟩ := mem_orderedOutput h
  refine ⟨?_, x, hx, cells, hc, rfl⟩
  cases cells with
  | nil => exact absurd rfl hc
  | cons a as => simp only [List.length_cons]; omega

/-- Witness for C10 at the concrete example document. -/
theorem labeled_row_shape_witness :
    (["Industry Codes", "Code", "Name"] ∈
      (extract_and_join_tables "u" (FetchOutcome.success exampleDoc)).2) ∧
    (2 ≤ (["Industry Codes", "Code", "Name"] : List String).length ∧
      ∃ x ∈ (idxTables exampleDoc).enum, ∃ cells, cells ≠ [] ∧
        ["Industry Codes", "Code", "Name"] =
          tableNameOf exampleDoc x.1 x.2.1 x.2.2 :: cells) :=
  ⟨by decide, labeled_row_shape "u" exampleDoc _ (by decide)⟩

/-! ## Nesting: a match's descendants' matches are the forest's matches -/

mutual
theorem mem_findAllF_trans (p q : String → Bool) :
    ∀ (l : List Node) (x y : Node), x ∈ findAllF p l →
      y ∈ findAllF q (childrenOf x) → y ∈ findAllF q l
  | [], x, y, hx, _ => by simp [findAllF] at hx
  | n :: ns, x, y, hx, hy => by
      rw [findAllF] at hx ⊢
      rcases List.mem_append.mp hx with h | h
      · exact List.mem_append.mpr (Or.inl (mem_findAllN_trans p q n x y h hy))
      · exact List.mem_append.mpr (Or.inr (mem_findAllF_trans p q ns x y h hy))

theorem mem_findAllN_trans (p q : String → Bool) :
    ∀ (n x y : Node), x ∈ findAllN p n →
      y ∈ findAllF q (childrenOf x) → y ∈ findAllN q n
  | .text s, x, y, hx, _ => by simp [findAllN] at hx
  | .elem t cs, x, y, hx, hy => by
      rw [findAllN] at hx ⊢
      rcases List.mem_append.mp hx with h | h
      · have hxe : x = Node.elem t cs := by
          by_cases hp : p t
          · simpa [hp] using h
          · simp [hp] at h
        subst hxe
        exact List.mem_append.mpr (Or.inr (by simpa [childrenOf] using hy))
      · exact List.mem_append.mpr
          (Or.inr (mem_findAllF_trans p q cs x y h hy))
end

/-! ## Counting occurrences across a flatten -/

theorem countP_le_countP_flatten {α : Type} (p : α → Bool) {x : List α}
    {L : List (List α)} (h : x ∈ L) :
    x.countP p ≤ (L.flatten).countP p := by
  obtain ⟨s, t, rfl⟩ := List.append_of_mem h
  rw [List.flatten_append, List.flatten_cons, List.countP_append,
    List.countP_append]
  omega

theorem countP_two_positions_lt {α : Type} (p : α → Bool) (L : List (List α))
    {i1 i2 : Nat} {l1 l2 : List α} (h12 : i1 < i2)
    (h1 : L[i1]? = some l1) (h2 : L[i2]? = some l2)
    (c1 : 0 < l1.countP p) (c2 : 0 < l2.countP p) :
    2 ≤ (L.flatten).countP p := by
  have hsplit : L = L.take i2 ++ L.drop i2 := (List.take_append_drop i2 L).symm
  have hm1 : l1 ∈ L.take i2 := by
    have hg : (L.take i2)[i1]? = some l1 := by
      rw [List.getElem?_take, if_pos h12]; exact h1
    exact List.getElem?_mem hg
  have hm2 : l2 ∈ L.drop i2 := by
    have hg : (L.drop i2)[0]? = some l2 := by
      rw [List.getElem?_drop]; simpa using h2
    exact List.getElem?_mem hg
  have t1 := countP_le_countP_flatten p hm1
  have t2 := countP_le_countP_flatten p hm2
  rw [hsplit, List.flatten_append, List.countP_append]
  omega

theorem countP_two_positions {α : Type} (p : α → Bool) (L : List (List α))
    {i1 i2 : Nat} {l1 l2 : List α} (hne : i1 ≠ i2)
    (h1 : L[i1]? = some l1) (h2 : L[i2]? = some l2)
    (c1 : 0 < l1.countP p) (c2 : 0 < l2.countP p) :
    2 ≤ (L.flatten).countP p := by
  rcases Nat.lt_or_ge i1 i2 with h | h
  · exact countP_two_positions_lt p L h h1 h2 c1 c2
  · exact countP_two_positions_lt p L
      (Nat.lt_of_le_of_ne h (Ne.symm hne)) h2 h1 c2 c1

/-- A non-empty row of a table appears, labeled, in that table's
contribution. -/
theorem mem_labeledRowsOfTable {doc : List Node} {x : Nat × Nat × Node}
    {row : Node} (hrow : row ∈ tableRows x.2.2)
    (hcells : rowCells row ≠ []) :
    (tableNameOf doc x.1 x.2.1 x.2.2 :: rowCells row) ∈
      labeledRowsOfTable doc x := by
  unfold labeledRowsOfTable
  rw [List.mem_filterMap]
  exact ⟨row, hrow, by rw [if_neg (by simpa [List.isEmpty_iff] using hcells)]⟩

/-- C9: when a table is nested inside another table, both the outer
table's recursive row enumeration and the inner table's own enumeration
emit each non-empty inner row, so its cell content appears at least twice
in the result — once labeled with the outer table's name and once with
the inner table's name. -/
theorem nested_table_rows_duplicated (url : String) (doc : List Node)
    (i1 j1 i2 j2 : Nat) (t1 t2 row : Node)
    (h1 : (idxTables doc)[i1]? = some (j1, t1))
    (h2 : (idxTables doc)[i2]? = some (j2, t2))
    (hne : i1 ≠ i2)
    (hnest : t2 ∈ findAllF isTable (childrenOf t1))
    (hrow : row ∈ tableRows t2)
    (hcells : rowCells row ≠ []) :
    (tableNameOf doc i1 j1 t1 :: rowCells row) ∈
        (extract_and_join_tables url (FetchOutcome.success doc)).2 ∧
    (tableNameOf doc i2 j2 t2 :: rowCells row) ∈
        (extract_and_join_tables url (FetchOutcome.success doc)).2 ∧
    2 ≤ ((extract_and_join_tables url (FetchOutcome.success doc)).2).countP
        (fun r => r.tail == rowCells row) := by
  rw [extract_success_snd]
  have he1 : ((idxTables doc).enum)[i1]? = some (i1, (j1, t1)) := by
    rw [List.getElem?_enum, h1]; rfl
  have he2 : ((idxTables doc).enum)[i2]? = some (i2, (j2, t2)) := by
    rw [List.getElem?_enum, h2]; rfl
  have hrow1 : row ∈ tableRows t1 := by
    unfold tableRows at hrow ⊢
    exact mem_findAllF_trans isTable isTr (childrenOf t1) t2 row hnest hrow
  have hm1 : (tableNameOf doc i1 j1 t1 :: rowCells row) ∈
      labeledRowsOfTable doc (i1, (j1, t1)) :=
    mem_labeledRowsOfTable hrow1 hcells
  have hm2 : (tableNameOf doc i2 j2 t2 :: rowCells row) ∈
      labeledRowsOfTable doc (i2, (j2, t2)) :=
    mem_labeledRowsOfTable hrow hcells
  have hL1 : (((idxTables doc).enum).map (labeledRowsOfTable doc))[i1]? =
      some (labeledRowsOfTable doc (i1, (j1, t1))) := by
    rw [List.getElem?_map, he1]; rfl
  have hL2 : (((idxTables doc).enum).map (labeledRowsOfTable doc))[i2]? =
      some (labeledRowsOfTable doc (i2, (j2, t2))) := by
    rw [List.getElem?_map, he2]; rfl
  unfold orderedOutput
  refine ⟨List.mem_flatten.mpr ⟨_, List.getElem?_mem hL1, hm1⟩,
    List.mem_flatten.mpr ⟨_, List.getElem?_mem hL2, hm2⟩, ?_⟩
  apply countP_two_positions _ _ hne hL1 hL2
  · exact List.countP_pos_iff.mpr ⟨_, hm1, by simp⟩
  · exact List.countP_pos_iff.mpr ⟨_, hm2, by simp⟩

/-- Witness for C9 at the concrete nested document. -/
theorem nested_table_rows_duplicated_witness :
    ((idxTables nestedDoc)[0]? = some (0, outerTable) ∧
     (idxTables nestedDoc)[1]? = some (4, innerTable) ∧
     innerTable ∈ findAllF isTable (childrenOf outerTable) ∧
     innerRow ∈ tableRows innerTable ∧
     rowCells innerRow ≠ []) ∧
    ((tableNameOf nestedDoc 0 0 outerTable :: rowCells innerRow) ∈
        (extract_and_join_tables "u" (FetchOutcome.success nestedDoc)).2 ∧
     (tableNameOf nestedDoc 1 4 innerTable :: rowCells innerRow) ∈
        (extract_and_join_tables "u" (FetchOutcome.success nestedDoc)).2 ∧
     2 ≤ ((extract_and_join_tables "u" (FetchOutcome.success nestedDoc)).2).countP
        (fun r => r.tail == rowCells innerRow)) := by
  refine ⟨⟨rfl, rfl, ?_, ?_, by decide⟩, ?_⟩
  · exact List.mem_singleton.mpr rfl
  · exact List.mem_singleton.mpr rfl
  · exact nested_table_rows_duplicated "u" nestedDoc 0 0 1 4 outerTable
      innerTable innerRow rfl rfl (by decide)
      (List.mem_singleton.mpr rfl) (List.mem_singleton.mpr rfl) (by decide)

/-- C5: a transport failure or an HTTP error status (4xx/5xx) is caught
inside the extractor: no exception reaches the caller, the returned
sequence is empty, the failure is reported as a printed message, and the
driver then leaves the destination file unchanged — no file is created
or modified in that run. -/
theorem fetch_failure_contained (url e : String) (w : WriteAttempt)
    (prior : Option String) :
    (extract_and_join_tables url (FetchOutcome.failure e)).2 = [] ∧
    (extract_and_join_tables url (FetchOutcome.failure e)).1 =
      ["Error fetching URL " ++ url ++ ": " ++ e] ∧
    mainRun (FetchOutcome.failure e) w prior = prior :=
  ⟨rfl, rfl, rfl⟩

/-- C6: the Writer opens its destination in truncate-and-rewrite mode:
the resulting content ignores whatever was on disk before (no append, no
merge), so a second identical run reproduces byte-identical content. -/
theorem writer_idempotent (data : List (List String)) (fn : String)
    (prior prior' : Option String) :
    (write_to_csv WriteAttempt.success data fn
        ((write_to_csv WriteAttempt.success data fn prior).1)).1 =
      (write_to_csv WriteAttempt.success data fn prior).1 ∧
    (write_to_csv WriteAttempt.success data fn prior).1 =
      (write_to_csv WriteAttempt.success data fn prior').1 ∧
    (write_to_csv WriteAttempt.success data fn prior).1 =
      some (csvContent data) :=
  ⟨rfl, rfl, rfl⟩

/-- C7: an `IOError` while opening or writing the destination is caught
locally: the Writer returns normally (no exception escapes, the process
runs on) with an error report message, and the file is left either
untouched (open failed) or holding a written prefix of the data — no
transactional guarantee. -/
theorem writer_io_failure_contained (w : WriteAttempt)
    (data : List (List String)) (fn : String) (prior : Option String)
    (h : w ≠ WriteAttempt.success) :
    (∃ e, (write_to_csv w data fn prior).2 =
      ["Error writing to CSV file " ++ fn ++ ": " ++ e]) ∧
    ((write_to_csv w data fn prior).1 = prior ∨
      ∃ k, (write_to_csv w data fn prior).1 =
        some (csvContent (data.take k))) := by
  cases w with
  | success => exact absurd rfl h
  | failAtOpen e => exact ⟨⟨e, rfl⟩, Or.inl rfl⟩
  | failAfter k e => exact ⟨⟨e, rfl⟩, Or.inr ⟨k, rfl⟩⟩

/-- Witness for C7: a permission failure at open reports and leaves the
prior content in place. -/
theorem writer_io_failure_contained_witness :
    (WriteAttempt.failAtOpen "Permission denied" ≠ WriteAttempt.success) ∧
    ((∃ e, (write_to_csv (WriteAttempt.failAtOpen "Permission denied")
        [["a", "b"]] "out.csv" (some "old")).2 =
      ["Error writing to CSV file " ++ "out.csv" ++ ": " ++ e]) ∧
     ((write_to_csv (WriteAttempt.failAtOpen "Permission denied")
        [["a", "b"]] "out.csv" (some "old")).1 = some "old" ∨
      ∃ k, (write_to_csv (WriteAttempt.failAtOpen "Permission denied")
        [["a", "b"]] "out.csv" (some "old")).1 =
          some (csvContent ([["a", "b"]].take k)))) :=
  ⟨by decide, writer_io_failure_contained _ [["a", "b"]] "out.csv"
    (some "old") (by decide)⟩

/-! ## CSV round trip: parsing inverts encoding -/

theorem parseQuoted_cons_ne (c : Char) (l : List Char) (hc : ¬c = '"') :
    parseQuoted (c :: l) = (parseQuoted l).map fun p => (c :: p.1, p.2) := by
  cases l with
  | nil => rw [parseQuoted.eq_3, if_neg hc]
  | cons c2 r2 => rw [parseQuoted.eq_2, if_neg hc]

theorem parseQuoted_escape (f : List Char) (rest : List Char)
    (h : rest.head? ≠ some '"') :
    parseQuoted (escapeQuotes f ++ '"' :: rest) = some (f, rest) := by
  induction f with
  | nil =>
      cases rest with
      | nil => rfl
      | cons c2 r2 =>
          have hc2 : ¬(c2 = '"') := by simpa using h
          simp [escapeQuotes, parseQuoted, hc2]
  | cons c cs ih =>
      by_cases hc : c = '"'
      · subst hc
        simp [escapeQuotes, parseQuoted, ih]
      · rw [show escapeQuotes (c :: cs) = c :: escapeQuotes cs from by
          simp [escapeQuotes, hc]]
        rw [List.cons_append, parseQuoted_cons_ne c _ hc, ih]
        rfl

theorem parseUnquoted_clean (f rest : List Char)
    (hf : ∀ c ∈ f, c ≠ ',' ∧ c ≠ '\r')
    (hr : rest.head? = some ',' ∨ rest.head? = some '\r') :
    parseUnquoted (f ++ rest) = (f, rest) := by
  induction f with
  | nil =>
      cases rest with
      | nil => simp at hr
      | cons c r =>
          have hc : c = ',' ∨ c = '\r' := by
            rcases hr with h | h
            · exact Or.inl (by simpa using h)
            · exact Or.inr (by simpa using h)
          rcases hc with rfl | rfl <;> simp [parseUnquoted]
  | cons c cs ih =>
      obtain ⟨h1, h2⟩ := hf c (List.mem_cons_self c cs)
      have ihr := ih fun d hd => hf d (List.mem_cons_of_mem c hd)
      simp [parseUnquoted, h1, h2, ihr]

theorem parseField_encode (qe : Bool) (f rest : List Char)
    (hr : rest.head? = some ',' ∨ rest.head? = some '\r') :
    parseField (encodeField qe f ++ rest) = some (f, rest) := by
  have hrq : rest.head? ≠ some '"' := by
    rcases hr with h | h <;> rw [h] <;> simp
  unfold encodeField
  by_cases hq : (needsQuoting f || (qe && f.isEmpty)) = true
  · rw [if_pos hq]
    have hs : ('"' :: (escapeQuotes f ++ ['"'])) ++ rest =
        '"' :: (escapeQuotes f ++ '"' :: rest) := by simp
    rw [hs]
    simp only [parseField, if_pos rfl]
    exact parseQuoted_escape f rest hrq
  · rw [if_neg hq]
    have hnq : needsQuoting f = false := by
      cases hv : needsQuoting f
      · rfl
      · rw [hv] at hq; simp at hq
    have hclean0 : ∀ c ∈ f, ((¬c = ',' ∧ ¬c = '"') ∧ ¬c = '\r') ∧ ¬c = '\n' := by
      simpa [needsQuoting] using hnq
    have hclean : ∀ c ∈ f, c ≠ ',' ∧ c ≠ '\r' ∧ c ≠ '"' := fun c hcmem =>
      ⟨(hclean0 c hcmem).1.1.1, (hclean0 c hcmem).1.2, (hclean0 c hcmem).1.1.2⟩
    cases f with
    | nil =>
        cases rest with
        | nil => simp at hr
        | cons c r =>
            have hc : c = ',' ∨ c = '\r' := by
              rcases hr with h | h
              · exact Or.inl (by simpa using h)
              · exact Or.inr (by simpa using h)
            have hcq : ¬(c = '"') := by
              rcases hc with rfl | rfl <;> decide
            simp only [List.nil_append, parseField, if_neg hcq]
            have := parseUnquoted_clean [] (c :: r) (by simp)
              (by rcases hc with rfl | rfl
                  · exact Or.inl rfl
                  · exact Or.inr rfl)
            simpa using congrArg some this
    | cons a as =>
        have haq : ¬(a = '"') := (hclean a (by simp)).2.2
        simp only [List.cons_append, parseField, if_neg haq]
        have := parseUnquoted_clean (a :: as) rest
          (fun c hcmem => ⟨(hclean c hcmem).1, (hclean c hcmem).2.1⟩) hr
        simpa using congrArg some this

theorem parseFields_single (qe : Bool) (f : List Char) (tail : List Char) :
    ∀ fuel, 1 ≤ fuel →
      parseFields fuel (encodeField qe f ++ '\r' :: '\n' :: tail) =
        some ([f], tail)
  | 0, h => by simp at h
  | n + 1, _ => by
      rw [parseFields,
        parseField_encode qe f ('\r' :: '\n' :: tail) (Or.inr rfl)]
      simp

theorem parseFields_multi :
    ∀ (fs : List (List Char)) (tail : List Char), fs ≠ [] →
      ∀ fuel, fs.length ≤ fuel →
        parseFields fuel (encodeFields fs ++ '\r' :: '\n' :: tail) =
          some (fs, tail)
  | [], _, hne, _, _ => absurd rfl hne
  | [f], tail, _, fuel, hfuel => by
      rw [encodeFields]
      exact parseFields_single false f tail fuel hfuel
  | f :: g :: gs, tail, _, fuel, hfuel => by
      cases fuel with
      | zero => simp at hfuel
      | succ n =>
          rw [encodeFields]
          have hassoc :
              (encodeField false f ++ ',' :: encodeFields (g :: gs)) ++
                  '\r' :: '\n' :: tail =
                encodeField false f ++
                  ',' :: (encodeFields (g :: gs) ++ '\r' :: '\n' :: tail) := by
            simp
          rw [parseFields, hassoc,
            parseField_encode false f
              (',' :: (encodeFields (g :: gs) ++ '\r' :: '\n' :: tail))
              (Or.inl rfl)]
          have ih := parseFields_multi (g :: gs) tail (by simp) n
            (by simp only [List.length_cons] at hfuel ⊢; omega)
          simp [ih]

theorem encodeField_head_ne (qe : Bool) (f : List Char) (c : Char)
    (cs : List Char) (h : encodeField qe f = c :: cs) : c ≠ '\r' := by
  intro hc
  subst hc
  unfold encodeField at h
  by_cases hq : (needsQuoting f || (qe && f.isEmpty)) = true
  · rw [if_pos hq] at h
    injection h with h1 _
    exact absurd h1 (by decide)
  · rw [if_neg hq] at h
    rw [h] at hq
    exact hq (by simp [needsQuoting])

theorem encodeField_true_ne_nil (f : List Char) : encodeField true f ≠ [] := by
  unfold encodeField
  by_cases hq : (needsQuoting f || (true && f.isEmpty)) = true
  · rw [if_pos hq]; simp
  · rw [if_neg hq]
    intro hnil
    exact hq (by simp [hnil])

theorem len_encodeFields : ∀ fs : List (List Char), fs ≠ [] →
    fs.length ≤ (encodeFields fs).length + 1
  | [], h => absurd rfl h
  | [f], _ => by simp [encodeFields]
  | f :: g :: gs, _ => by
      rw [encodeFields]
      have ihl := len_encodeFields (g :: gs) (by simp)
      simp only [List.length_cons, List.length_append] at ihl ⊢
      omega

theorem parseRecord_encode : ∀ (r : List (List Char)) (tail : List Char),
    parseRecord (encodeRecord r ++ tail) = some (r, tail)
  | [], tail => by
      simp [encodeRecord, CRLF, parseRecord]
  | [f], tail => by
      rw [encodeRecord]
      obtain ⟨c, cs, heq⟩ : ∃ c cs, encodeField true f = c :: cs := by
        cases hef : encodeField true f with
        | nil => exact absurd hef (encodeField_true_ne_nil f)
        | cons c cs => exact ⟨c, cs, rfl⟩
      have hc : c ≠ '\r' := encodeField_head_ne true f c cs heq
      have hs : (encodeField true f ++ CRLF) ++ tail =
          encodeField true f ++ '\r' :: '\n' :: tail := by simp [CRLF]
      rw [hs]
      unfold parseRecord
      rw [if_neg (by rw [heq]; simp [CRLF, hc]),
        if_neg (by rw [heq]; simp)]
      exact parseFields_single true f tail _
        (Nat.succ_le_succ (Nat.zero_le _))
  | f :: g :: gs, tail => by
      have hrec : encodeRecord (f :: g :: gs) =
          encodeFields (f :: g :: gs) ++ CRLF := by
        rw [encodeRecord, encodeFields]; simp
      rw [hrec]
      have hs : (encodeFields (f :: g :: gs) ++ CRLF) ++ tail =
          encodeFields (f :: g :: gs) ++ '\r' :: '\n' :: tail := by
        simp [CRLF]
      rw [hs]
      obtain ⟨c, cs, heq, hc⟩ :
          ∃ c cs, encodeFields (f :: g :: gs) = c :: cs ∧ c ≠ '\r' := by
        rw [encodeFields]
        cases hef : encodeField false f with
        | nil =>
            exact ⟨',', encodeFields (g :: gs), by simp, by decide⟩
        | cons c cs =>
            exact ⟨c, cs ++ ',' :: encodeFields (g :: gs), by simp,
              encodeField_head_ne false f c cs hef⟩
      unfold parseRecord
      rw [if_neg (by rw [heq]; simp [CRLF, hc]),
        if_neg (by rw [heq]; simp)]
      apply parseFields_multi (f :: g :: gs) tail (by simp)
      have hlen := len_encodeFields (f :: g :: gs) (by simp)
      simp only [List.length_cons, List.length_append] at hlen ⊢
      omega

theorem len2_encodeRecord : ∀ r : List (List Char),
    2 ≤ (encodeRecord r).length
  | [] => by simp [encodeRecord, CRLF]
  | [f] => by simp [encodeRecord, CRLF]
  | f :: g :: gs => by simp [encodeRecord, CRLF]; omega

theorem parseRows_csvChars :
    ∀ (rows : List (List (List Char))) (fuel : Nat),
      rows.length < fuel → parseRows fuel (csvChars rows) = some rows
  | [], fuel, _ => by
      cases fuel with
      | zero => simp [csvChars, parseRows]
      | succ n => simp [csvChars, parseRows]
  | r :: rs, fuel, h => by
      cases fuel with
      | zero => simp at h
      | succ n =>
          have hcc : csvChars (r :: rs) = encodeRecord r ++ csvChars rs := by
            simp [csvChars]
          have hne : (encodeRecord r ++ csvChars rs).isEmpty = false := by
            have := len2_encodeRecord r
            cases henc : encodeRecord r with
            | nil => rw [henc] at this; simp at this
            | cons a as => simp
          rw [parseRows, hcc, if_neg (by simp [hne]), parseRecord_encode r]
          show Option.map (fun x => r :: x) (parseRows n (csvChars rs)) =
            some (r :: rs)
          rw [parseRows_csvChars rs n
            (by simp only [List.length_cons] at h; omega)]
          rfl

theorem parseCsvChars_csvChars (rows : List (List (List Char))) :
    parseCsvChars (csvChars rows) = some rows := by
  unfold parseCsvChars
  apply parseRows_csvChars
  have hlen : rows.length ≤ (csvChars rows).length := by
    induction rows with
    | nil => simp [csvChars]
    | cons r rs ih =>
        have h2 := len2_encodeRecord r
        simp only [csvChars, List.map_cons, List.flatten_cons,
          List.length_append, List.length_cons] at ih ⊢
        omega
  omega

theorem string_mk_data (s : String) : String.mk s.data = s := rfl

/-- C4: for any sequence of rows — fields containing embedded delimiters,
quotes, or line breaks included — the file content the Writer produces,
parsed back under the quoting convention (quoted fields for special
characters, inner quotes doubled), is field-for-field equal to the
sequence that was written. -/
theorem csv_round_trip (data : List (List String)) (fn : String)
    (prior : Option String) :
    (write_to_csv WriteAttempt.success data fn prior).1 =
      some (csvContent data) ∧
    parseCsv (csvContent data) = some data := by
  refine ⟨rfl, ?_⟩
  unfold parseCsv csvContent
  have h1 : (String.mk (csvChars (data.map fun r => r.map String.data))).data
      = csvChars (data.map fun r => r.map String.data) := rfl
  rw [h1, parseCsvChars_csvChars]
  simp only [Option.map_some', Option.some.injEq]
  rw [List.map_map]
  have h2 : ((fun r : List (List Char) => r.map String.mk) ∘
      (fun r : List String => r.map String.data)) = id := by
    funext r
    simp only [Function.comp_apply, List.map_map, id_eq]
    have h3 : (String.mk ∘ String.data) = id := funext fun s => string_mk_data s
    rw [h3, List.map_id]
  rw [h2, List.map_id]

end LinkedinTables
